import Mathlib

/-!
A shallow embedding of the STAMP *vacation* benchmark driver
(`vacation.c`) and of the TL2 `tm.h` macro layer, together with theorems
checking the natural-language specification of the repository against
the embedded code.

The embedding covers:
* the CLI surface: `global_params`, `setDefaultParams`, `parseArgs`
  (with a faithful model of `getopt "c:n:q:r:t:u:"` and of `atol`);
* the setup phase `initializeManager` (id shuffle and table population),
  `cleanupManager`, and `initializeClients`;
* the console output sequence of `main`;
* the `tm.h` macros `TM_EARLY_RELEASE`, `P_MALLOC`/`P_FREE` and
  `TM_MALLOC`/`TM_FREE`.
The pseudo-random generator (`lib/random`) is external to the sources;
it is modelled as an arbitrary deterministic stream of naturals, exactly
the contract the spec assigns to it.
-/

namespace Vacation

/-! ### Parameter table

`vacation.c` keeps parameters in `double global_params[256]`, indexed by
the flag character; the array is zero-initialised (C static storage) and
`setDefaultParams` fills in the six defaults.  We model the array as a
function from `Char` to `Int` (all values stored are `long`s obtained
from `atol`). -/

def Params : Type := Char → Int

def initialParams : Params := fun _ => 0

def setParam (p : Params) (c : Char) (v : Int) : Params :=
  fun x => if x = c then v else p x

def PARAM_DEFAULT_CLIENTS : Int := 1

def PARAM_DEFAULT_NUMBER : Int := 10

def PARAM_DEFAULT_QUERIES : Int := 90

def PARAM_DEFAULT_RELATIONS : Int := 65536

def PARAM_DEFAULT_TRANSACTIONS : Int := 67108864

def PARAM_DEFAULT_USER : Int := 80

def setDefaultParams (p : Params) : Params :=
  setParam (setParam (setParam (setParam (setParam (setParam p
    'c' PARAM_DEFAULT_CLIENTS)
    'n' PARAM_DEFAULT_NUMBER)
    'q' PARAM_DEFAULT_QUERIES)
    'r' PARAM_DEFAULT_RELATIONS)
    't' PARAM_DEFAULT_TRANSACTIONS)
    'u' PARAM_DEFAULT_USER

def defaultParams : Params := setDefaultParams initialParams

/-! ### `atol`

C `atol`: skip leading whitespace, read an optional sign, then the
longest prefix of decimal digits; an empty digit string yields 0. -/

def digitsVal : List Char → Int → Int
  | [], acc => acc
  | c :: cs, acc =>
    if c.isDigit then digitsVal cs (acc * 10 + ((c.toNat : Int) - 48))
    else acc

def atolChars : List Char → Int
  | [] => 0
  | c :: cs =>
    if c.isWhitespace then atolChars cs
    else if c = '-' then - digitsVal cs 0
    else if c = '+' then digitsVal cs 0
    else digitsVal (c :: cs) 0

def atol (s : String) : Int := atolChars s.toList

/-! ### `getopt` loop of `parseArgs`

`parseArgs` runs `getopt(argc, argv, "c:n:q:r:t:u:")`, storing each flag
value with `atol` and counting every `?` return in `opterr`; after the
loop every remaining non-option argument also increments `opterr`, and a
non-zero `opterr` leads to `displayUsage`, which exits with code 1.

The model processes the argument vector (without `argv[0]`).
`scanElem` scans the characters of one `-`-prefixed element the way
`getopt` does: a known flag character takes the rest of the element as
its argument if non-empty, otherwise it consumes the next element (the
returned `Bool`); a missing argument or an unknown character bumps the
error count.  `parseLoop` walks the elements: `--` terminates option
scanning (everything after it is a non-option argument), an element not
starting with `-` (or a bare `-`) is a non-option argument, counted
after the loop exactly as the source's `optind < argc` loop does. -/

def optString : List Char := ['c', 'n', 'q', 'r', 't', 'u']

def isFlagChar (c : Char) : Bool := optString.contains c

/-- How `getopt` classifies one `argv` element: the exact word `--`
(end of options), a word starting with `-` followed by at least one
character (option characters to scan), or a non-option argument (no
leading `-`, a bare `-`, or an empty word). -/
inductive ElemKind where
  | dashdash : ElemKind
  | option : Char → List Char → ElemKind
  | nonOption : ElemKind

def classify (s : String) : ElemKind :=
  match s.toList with
  | '-' :: '-' :: [] => ElemKind.dashdash
  | '-' :: c :: cs => ElemKind.option c cs
  | _ => ElemKind.nonOption

def scanElem : Params → Nat → List Char → Option String → Params × Nat × Bool
  | p, e, [], _ => (p, e, false)
  | p, e, c :: cs, la =>
    if isFlagChar c then
      match cs, la with
      | [], none => (p, e + 1, false)
      | [], some a => (setParam p c (atol a), e, true)
      | c' :: cs', _ => (setParam p c (atol (String.mk (c' :: cs'))), e, false)
    else
      scanElem p (e + 1) cs la

def parseLoop : Params → Nat → List String → Params × Nat
  | p, e, [] => (p, e)
  | p, e, s :: rest =>
    match classify s with
    | ElemKind.dashdash => (p, e + rest.length)
    | ElemKind.option c cs =>
      let r := scanElem p e (c :: cs) rest.head?
      if r.2.2 then
        match rest with
        | [] => (r.1, r.2.1)
        | _ :: rest' => parseLoop r.1 r.2.1 rest'
      else parseLoop r.1 r.2.1 rest
    | ElemKind.nonOption =>
      let r := parseLoop p e rest
      (r.1, r.2 + 1)

def parseArgs (args : List String) : Params × Nat :=
  parseLoop defaultParams 0 args

/-! ### Spec-side description of a parseable command line

Written from the spec's error enumeration: parsing fails exactly on an
unknown option, a missing required argument, or a non-option argument.
`goodElem` checks one option element (`some b` = well-formed, `b` =
whether the element's argument is the following word); `goodCmdLine`
checks the whole argument vector. -/

def goodElem : List Char → Option String → Option Bool
  | [], _ => some false
  | c :: cs, la =>
    if isFlagChar c then
      match cs, la with
      | [], none => none
      | [], some _ => some true
      | _ :: _, _ => some false
    else none

def goodCmdLine : List String → Bool
  | [] => true
  | s :: rest =>
    match classify s with
    | ElemKind.dashdash => rest.isEmpty
    | ElemKind.option c cs =>
      match goodElem (c :: cs) rest.head? with
      | some true => goodCmdLine rest.tail
      | some false => goodCmdLine rest
      | none => false
    | ElemKind.nonOption => false
termination_by l => l.length
decreasing_by
  all_goals simp only [List.length_cons, List.length_tail]
  all_goals omega

/-- A flag character is omitted from the command line: it occurs in no
word of the argument vector. -/
def notInArgs (f : Char) (args : List String) : Prop :=
  ∀ s ∈ args, f ∉ s.toList

instance (f : Char) (args : List String) : Decidable (notInArgs f args) :=
  inferInstanceAs (Decidable (∀ s ∈ args, f ∉ s.toList))

/-- Exit code of `main`: it exits with code 1 through `displayUsage` when `opterr` is
non-zero after parsing, and otherwise runs to `MAIN_RETURN(0)`. -/
def vacationExitCode (args : List String) : Nat :=
  if (parseArgs args).2 = 0 then 0 else 1

/-! ### Client initialisation (`initializeClients`)

`client_alloc(i, managerPtr, numTransactionPerClient,
numQueryPerTransaction, queryRange, percentUser)` stores the driver
parameters of one client. -/

structure Client where
  id : Int
  numTransaction : Int
  numQueryPerTransaction : Int
  queryRange : Int
  percentUser : Int
deriving DecidableEq

/-- The C cast `(long)` applied to a double: truncation toward zero. -/
def longOfDouble (q : ℚ) : Int := if q < 0 then ⌈q⌉ else ⌊q⌋

/-- Source: `numTransactionPerClient = (long)((double)numTransaction /
(double)numClient + 0.5)`, with real arithmetic modelling the doubles. -/
def numTransactionPerClient (numTransaction numClient : Int) : Int :=
  longOfDouble ((numTransaction : ℚ) / (numClient : ℚ) + 1 / 2)

/-- Source: `queryRange = (long)((double)percentQuery / 100.0 *
(double)numRelation + 0.5)`. -/
def queryRangeOf (percentQuery numRelation : Int) : Int :=
  longOfDouble ((percentQuery : ℚ) / 100 * (numRelation : ℚ) + 1 / 2)

def initializeClients (p : Params) : List Client :=
  let numClient := p 'c'
  let perClient := numTransactionPerClient (p 't') (p 'c')
  let qr := queryRangeOf (p 'q') (p 'r')
  (List.range numClient.toNat).map
    (fun i => ⟨(i : Int), perClient, p 'n', qr, p 'u'⟩)

/-- The total number of transactions handed to the thread pool. -/
def threadPoolWork (p : Params) : Int :=
  ((initializeClients p).map Client.numTransaction).sum

/-! ### The setup phase (`initializeManager`)

Modelled from the spec: the PRNG (`lib/random`, external to the
sources) is a deterministic generator of non-negative integers; it is
embedded as an arbitrary stream `f` of naturals together with the
position `k` of the next draw. -/

structure RandState where
  f : Nat → Nat
  k : Nat

def random_generate (r : RandState) : Nat × RandState :=
  (r.f r.k, ⟨r.f, r.k + 1⟩)

/-- One in-place swap `tmp = ids[x]; ids[x] = ids[y]; ids[y] = tmp` of
the shuffle loop. -/
def swapIds (ids : List Int) (x y : Nat) : List Int :=
  let tmp := ids.getD x 0
  (ids.set x (ids.getD y 0)).set y tmp

/-- The shuffle loop of `initializeManager`: `numRelation` iterations,
each drawing two indices modulo `numRelation` and swapping. -/
def shuffleLoop (n : Nat) : Nat → List Int → RandState → List Int × RandState
  | 0, ids, r => (ids, r)
  | i + 1, ids, r =>
    let g1 := random_generate r
    let g2 := random_generate g1.2
    shuffleLoop n i (swapIds ids (g1.1 % n) (g2.1 % n)) g2.2

/-- One `manager_add[t](managerPtr, id, num, price)` call of the
populate loop. -/
structure ReservationCall where
  id : Int
  num : Int
  price : Int
deriving DecidableEq

/-- The populate loop of `initializeManager`: for each id in the
shuffled order, `num = ((rand % 5) + 1) * 100` and
`price = ((rand % 5) * 10) + 50`. -/
def populateLoop : List Int → RandState → List ReservationCall × RandState
  | [], r => ([], r)
  | id :: rest, r =>
    let g1 := random_generate r
    let g2 := random_generate g1.2
    let num : Int := ((g1.1 % 5 + 1 : Nat) : Int) * 100
    let price : Int := ((g2.1 % 5 : Nat) : Int) * 10 + 50
    let t := populateLoop rest g2.2
    (⟨id, num, price⟩ :: t.1, t.2)

/-- Initial id array: `ids[i] = i + 1` for `i = 0 .. numRelation-1`. -/
def idsInit (n : Nat) : List Int :=
  (List.range n).map (fun i : Nat => ((i : Int) + 1))

/-- One iteration of the table loop: shuffle the id array, then
populate the table, threading the id array and the PRNG. -/
def tableRound (n : Nat) (ids : List Int) (r : RandState) :
    List ReservationCall × List Int × RandState :=
  let s := shuffleLoop n n ids r
  let t := populateLoop s.1 s.2
  (t.1, s.1, t.2)

/-- The outer `for (t = 0; t < numTable; t++)` loop: `t` remaining
table rounds, threading the id array and the PRNG. -/
def tableRounds (n : Nat) : Nat → List Int → RandState → List (List ReservationCall)
  | 0, _, _ => []
  | t + 1, ids, r =>
    let tr := tableRound n ids r
    tr.1 :: tableRounds n t tr.2.1 tr.2.2

/-- The four add-call sequences issued by `initializeManager`, in table
order car, flight, room, customer (`numTable = 4`). -/
def initManagerCalls (n : Nat) (r : RandState) : List (List ReservationCall) :=
  tableRounds n 4 (idsInit n) r

/-- The ids passed to `manager_addCustomer_seq` (table index 3). -/
def insertedCustomerIds (n : Nat) (r : RandState) : List Int :=
  ((initManagerCalls n r).getD 3 []).map ReservationCall.id

/-- The ids passed to `manager_deleteCustomer_seq` by `cleanupManager`:
`i + 1` for `i = 0 .. numRelation-1`. -/
def cleanupCustomerIds (n : Nat) : List Int :=
  (List.range n).map (fun i : Nat => ((i : Int) + 1))

/-! ### Manager tables

Modelled from the spec: `manager.c` and `reservation.c` are not part of
the sources; the table operations below follow spec §4.3/§4.4.  Tables
are maps from id to entry, embedded as association lists. -/

structure Reservation where
  id : Int
  numUsed : Int
  numFree : Int
  numTotal : Int
  price : Int
deriving DecidableEq

/-- Modelled from the spec: `manager_addCar_seq` /
`manager_addFlight_seq` / `manager_addRoom_seq`.  A fresh id creates a
reservation with capacity `num`, no usage and price `price`; an
existing id grows `numTotal` and `numFree` by `num` (failing if the
total would become negative) and sets the price when `price ≥ 0`.
`none` models a `FALSE` return. -/
def manager_addReservation_seq (tbl : List (Int × Reservation)) (id num price : Int) :
    Option (List (Int × Reservation)) :=
  match tbl.lookup id with
  | none =>
    if num < 0 then none
    else some ((id, ⟨id, 0, num, num, price⟩) :: tbl)
  | some r =>
    if r.numTotal + num < 0 then none
    else some (tbl.map (fun kv =>
      if kv.1 = id then
        (id, { r with numTotal := r.numTotal + num, numFree := r.numFree + num,
                      price := if 0 ≤ price then price else r.price })
      else kv))

structure Customer where
  id : Int
deriving DecidableEq

/-- Modelled from the spec: `manager_addCustomer_seq` inserts a fresh
customer with an empty reservation list and fails on a duplicate id. -/
def manager_addCustomer_seq (tbl : List (Int × Customer)) (id : Int) :
    Option (List (Int × Customer)) :=
  match tbl.lookup id with
  | none => some ((id, ⟨id⟩) :: tbl)
  | some _ => none

/-- Run a sequence of reservation add calls, stopping at the first
`FALSE` (the source `assert`s each status). -/
def applyResAdds : List (Int × Reservation) → List ReservationCall →
    Option (List (Int × Reservation))
  | tbl, [] => some tbl
  | tbl, c :: cs =>
    match manager_addReservation_seq tbl c.id c.num c.price with
    | none => none
    | some t => applyResAdds t cs

/-- Run a sequence of customer add calls, stopping at the first
`FALSE`. -/
def applyCustAdds : List (Int × Customer) → List ReservationCall →
    Option (List (Int × Customer))
  | tbl, [] => some tbl
  | tbl, c :: cs =>
    match manager_addCustomer_seq tbl c.id with
    | none => none
    | some t => applyCustAdds t cs

/-- The property claim C9 asserts of the setup phase: four add-call
sequences; each of length `numRelation`, with ids a permutation of
`1..numRelation`, capacities from `{100,…,500}` and prices from
`{50,…,90}`; and every add call returning `TRUE` against the initially
empty tables (rounds 0–2 are the reservation tables, round 3 the
customer table). -/
def initManagerOk (n : Nat) (r : RandState) : Prop :=
  (initManagerCalls n r).length = 4 ∧
  (∀ calls ∈ initManagerCalls n r,
    calls.length = n ∧
    (calls.map ReservationCall.id).Perm (idsInit n) ∧
    (∀ c ∈ calls, c.num ∈ ([100, 200, 300, 400, 500] : List Int) ∧
                  c.price ∈ ([50, 60, 70, 80, 90] : List Int))) ∧
  (∀ calls ∈ (initManagerCalls n r).take 3, (applyResAdds [] calls).isSome = true) ∧
  (applyCustAdds [] ((initManagerCalls n r).getD 3 [])).isSome = true

/-! ### Console output of `main` -/

inductive OutEvent where
  | initManagerMsg : OutEvent
  | doneMsg : OutEvent
  | initClientsMsg : OutEvent
  | summaryMsg : Int → Int → Int → Int → Int → Int → Int → Int → OutEvent
  | runningMsg : OutEvent
  | timeMsg : String → OutEvent
  | deallocMsg : OutEvent
deriving DecidableEq

/-- Zero-padded six decimal digits, the fractional part that
`printf("%0.6lf")` prints for a value already scaled and rounded to
micro-units. -/
def pad6 (m : Nat) : String :=
  String.mk ((List.range 6).map (fun i => Char.ofNat (48 + m / 10 ^ (5 - i) % 10)))

/-- The elapsed seconds scaled to micro-units and rounded, as
`printf("%0.6lf")` does. -/
def timeMicros (q : ℚ) : Nat := (round (q * 1000000)).toNat

def fmt6IntPart (q : ℚ) : String := toString (timeMicros q / 1000000)

def fmt6FracPart (q : ℚ) : String := pad6 (timeMicros q % 1000000)

/-- The `Time = %0.6lf` line. -/
def fmtTime (q : ℚ) : String := "Time = " ++ fmt6IntPart q ++ "." ++ fmt6FracPart q

/-- Output of `initializeManager`: the opening message then `done.`. -/
def initializeManagerTrace : List OutEvent :=
  [OutEvent.initManagerMsg, OutEvent.doneMsg]

/-- Output of `initializeClients`: the opening message, `done.`, then the
eight summary lines. -/
def initializeClientsTrace (p : Params) : List OutEvent :=
  [OutEvent.initClientsMsg, OutEvent.doneMsg,
   OutEvent.summaryMsg (p 't') (p 'c')
     (numTransactionPerClient (p 't') (p 'c')) (p 'n') (p 'r') (p 'q')
     (queryRangeOf (p 'q') (p 'r')) (p 'u')]

/-- The output sequence of a successful run of `main`: manager
initialisation, client initialisation, the parallel run with its
`done.` and `Time = %0.6lf` lines, then deallocation. -/
def mainTrace (p : Params) (elapsed : ℚ) : List OutEvent :=
  initializeManagerTrace ++ initializeClientsTrace p ++
  [OutEvent.runningMsg, OutEvent.doneMsg, OutEvent.timeMsg (fmtTime elapsed),
   OutEvent.deallocMsg, OutEvent.doneMsg]

def isSummaryMsg : OutEvent → Bool
  | OutEvent.summaryMsg _ _ _ _ _ _ _ _ => true
  | _ => false

def isTimeMsg : OutEvent → Bool
  | OutEvent.timeMsg _ => true
  | _ => false

/-! ### The `tm.h` macro layer (TL2 reference flavor)

Per-transaction metadata as the spec describes it: read version, read
set, write set, allocation and free logs. -/

structure TxState where
  rv : Nat
  readSet : List (Nat × Nat)
  writeSet : List (Nat × Nat)
  allocLog : List Nat
  freeLog : List Nat
  isReadOnly : Bool
deriving DecidableEq

/-- Macro `TM_EARLY_RELEASE(var)` expands to nothing (`tm.h` line 196). -/
def TM_EARLY_RELEASE (tx : TxState) (v : Nat) : TxState := tx

/-- Process state seen by the allocation macros: the set of live
pointers, a fresh-pointer counter, and the running transaction. -/
structure MemState where
  allocated : List Nat
  nextPtr : Nat
  tx : TxState
deriving DecidableEq

/-- Macro `P_MALLOC(size)` expands to plain `malloc(size)`: a fresh pointer
is allocated and no transactional log is touched. -/
def P_MALLOC (s : MemState) : Nat × MemState :=
  (s.nextPtr, { s with allocated := s.nextPtr :: s.allocated, nextPtr := s.nextPtr + 1 })

/-- Macro `P_FREE(ptr)` expands to plain `free(ptr)`. -/
def P_FREE (s : MemState) (ptr : Nat) : MemState :=
  { s with allocated := s.allocated.erase ptr }

/-- Operation `STM_MALLOC(size)`: allocate and record the pointer in the
transaction's allocation log. -/
def STM_MALLOC (s : MemState) : Nat × MemState :=
  (s.nextPtr,
   { s with allocated := s.nextPtr :: s.allocated, nextPtr := s.nextPtr + 1,
            tx := { s.tx with allocLog := s.nextPtr :: s.tx.allocLog } })

/-- Operation `STM_FREE(ptr)`: defer the free by recording the pointer in the
transaction's free log. -/
def STM_FREE (s : MemState) (ptr : Nat) : MemState :=
  { s with tx := { s.tx with freeLog := ptr :: s.tx.freeLog } }

/-- Macro `TM_MALLOC(size)` expands to `STM_MALLOC(size)`. -/
def TM_MALLOC (s : MemState) : Nat × MemState := STM_MALLOC s

/-- Macro `TM_FREE(ptr)` expands to `STM_FREE(ptr)`. -/
def TM_FREE (s : MemState) (ptr : Nat) : MemState := STM_FREE s ptr

/-- Abort rollback: pointers in the allocation log are returned to the
allocator and the transactional logs are reset. -/
def txAbortRollback (s : MemState) : MemState :=
  { s with allocated := s.allocated.filter (fun q => !(s.tx.allocLog.contains q)),
           tx := { s.tx with readSet := [], writeSet := [], allocLog := [], freeLog := [] } }

/-! ### Lemmas connecting the scanner to the spec-side predicate -/

theorem scanElem_err_ge (p : Params) (e : Nat) (chars : List Char) (la : Option String) :
    e ≤ (scanElem p e chars la).2.1 := by
  induction chars generalizing p e with
  | nil => exact Nat.le_refl e
  | cons c cs ih =>
    simp only [scanElem]
    split
    · match cs, la with
      | [], none => exact Nat.le_succ e
      | [], some a => exact Nat.le_refl e
      | c' :: cs', _ => exact Nat.le_refl e
    · exact Nat.le_trans (Nat.le_succ e) (ih p (e + 1))

theorem scanElem_goodElem_some (p : Params) (e : Nat) (chars : List Char)
    (la : Option String) (b : Bool) (h : goodElem chars la = some b) :
    (scanElem p e chars la).2.1 = e ∧ (scanElem p e chars la).2.2 = b := by
  cases chars with
  | nil =>
    simp only [goodElem, Option.some.injEq] at h
    simp [scanElem, ← h]
  | cons c cs =>
    simp only [goodElem] at h
    simp only [scanElem]
    by_cases hf : isFlagChar c
    · simp only [hf, if_true] at h ⊢
      match cs, la with
      | [], none => simp at h
      | [], some a =>
        simp only [Option.some.injEq] at h
        simp [← h]
      | c' :: cs', _ =>
        simp only [Option.some.injEq] at h
        simp [← h]
    · simp [hf] at h

theorem scanElem_goodElem_none (p : Params) (e : Nat) (chars : List Char)
    (la : Option String) (h : goodElem chars la = none) :
    e + 1 ≤ (scanElem p e chars la).2.1 := by
  cases chars with
  | nil => simp [goodElem] at h
  | cons c cs =>
    simp only [goodElem] at h
    simp only [scanElem]
    by_cases hf : isFlagChar c
    · simp only [hf, if_true] at h ⊢
      match cs, la with
      | [], none => exact Nat.le_refl (e + 1)
      | [], some a => simp at h
      | c' :: cs', _ => simp at h
    · simp only [hf, if_false, Bool.false_eq_true]
      exact scanElem_err_ge p (e + 1) cs la

theorem scanElem_none_not_consumed (p : Params) (e : Nat) (chars : List Char) :
    (scanElem p e chars none).2.2 = false := by
  induction chars generalizing p e with
  | nil => rfl
  | cons c cs ih =>
    simp only [scanElem]
    split
    · match cs with
      | [] => rfl
      | c' :: cs' => rfl
    · exact ih p (e + 1)

theorem parseLoop_err_ge (p : Params) (e : Nat) (args : List String) :
    e ≤ (parseLoop p e args).2 := by
  induction p, e, args using parseLoop.induct with
  | case1 p e => exact Nat.le_refl e
  | case2 p e s rest h =>
    simp only [parseLoop, h]
    exact Nat.le_add_right e rest.length
  | case3 p e s c cs h r hcond =>
    have hfalse : r.2.2 = false := scanElem_none_not_consumed p e (c :: cs)
    rw [hcond] at hfalse
    exact Bool.noConfusion hfalse
  | case4 p e s c cs h head rest' r hcond ih =>
    have hr : scanElem p e (c :: cs) (head :: rest').head? = r := rfl
    simp only [parseLoop, h, hr, hcond, if_true]
    exact Nat.le_trans (hr ▸ scanElem_err_ge p e (c :: cs) (head :: rest').head?) ih
  | case5 p e s rest c cs h r hcond ih =>
    have hr : scanElem p e (c :: cs) rest.head? = r := rfl
    simp only [parseLoop, h, hr]
    rw [if_neg hcond]
    exact Nat.le_trans (hr ▸ scanElem_err_ge p e (c :: cs) rest.head?) ih
  | case6 p e s rest h ih =>
    simp only [parseLoop, h]
    exact Nat.le_trans ih (Nat.le_succ _)

theorem parseLoop_err_zero_iff (p : Params) (e : Nat) (args : List String) :
    (parseLoop p e args).2 = 0 ↔ (e = 0 ∧ goodCmdLine args = true) := by
  induction p, e, args using parseLoop.induct with
  | case1 p e => simp [parseLoop, goodCmdLine]
  | case2 p e s rest h =>
    simp only [parseLoop]
    rw [goodCmdLine.eq_def]
    simp only [h]
    rw [List.isEmpty_iff]
    constructor
    · intro hz
      have h1 : e = 0 := by omega
      have h2 : rest.length = 0 := by omega
      exact ⟨h1, by simp [List.length_eq_zero.mp h2]⟩
    · rintro ⟨h1, h2⟩
      have h3 : rest = [] := by
        by_cases hrest : rest = []
        · exact hrest
        · simp [hrest] at h2
      simp [h1, h3]
  | case3 p e s c cs h r hcond =>
    have hfalse : r.2.2 = false := scanElem_none_not_consumed p e (c :: cs)
    rw [hcond] at hfalse
    exact Bool.noConfusion hfalse
  | case4 p e s c cs h head rest' r hcond ih =>
    have hr : scanElem p e (c :: cs) (head :: rest').head? = r := rfl
    simp only [parseLoop, h, hr, hcond, if_true]
    rw [goodCmdLine.eq_def]
    simp only [h, List.tail_cons]
    cases hg : goodElem (c :: cs) (head :: rest').head? with
    | none =>
      have h1 := scanElem_goodElem_none p e (c :: cs) (head :: rest').head? hg
      rw [hr] at h1
      have h2 := parseLoop_err_ge r.1 r.2.1 rest'
      constructor
      · intro hz; omega
      · rintro ⟨h3, h4⟩; exact Bool.noConfusion h4
    | some b =>
      have h1 := scanElem_goodElem_some p e (c :: cs) (head :: rest').head? b hg
      rw [hr] at h1
      have hb : b = true := by rw [← h1.2, hcond]
      subst hb
      rw [← h1.1]
      exact ih
  | case5 p e s rest c cs h r hcond ih =>
    have hr : scanElem p e (c :: cs) rest.head? = r := rfl
    simp only [parseLoop, h, hr]
    rw [if_neg hcond]
    rw [goodCmdLine.eq_def]
    simp only [h]
    cases hg : goodElem (c :: cs) rest.head? with
    | none =>
      have h1 := scanElem_goodElem_none p e (c :: cs) rest.head? hg
      rw [hr] at h1
      have h2 := parseLoop_err_ge r.1 r.2.1 rest
      constructor
      · intro hz; omega
      · rintro ⟨h3, h4⟩; exact Bool.noConfusion h4
    | some b =>
      have h1 := scanElem_goodElem_some p e (c :: cs) rest.head? b hg
      rw [hr] at h1
      have hb : b = false := by
        rw [← h1.2]
        exact Bool.eq_false_iff.mpr hcond
      subst hb
      rw [← h1.1]
      exact ih
  | case6 p e s rest h ih =>
    simp only [parseLoop]
    rw [goodCmdLine.eq_def]
    simp only [h]
    simp

/-! ### Parameters not mentioned on the command line keep their defaults -/

theorem setParam_ne (p : Params) (c f : Char) (v : Int) (h : f ≠ c) :
    setParam p c v f = p f := by
  simp [setParam, h]

theorem scanElem_param (f : Char) (chars : List Char) (p : Params) (e : Nat)
    (la : Option String) (hf : f ∉ chars) :
    (scanElem p e chars la).1 f = p f := by
  induction chars generalizing p e with
  | nil => rfl
  | cons c cs ih =>
    rw [List.mem_cons] at hf
    push_neg at hf
    simp only [scanElem]
    split
    · match cs, la with
      | [], none => rfl
      | [], some a => exact setParam_ne p c f (atol a) hf.1
      | c' :: cs', _ => exact setParam_ne p c f _ hf.1
    · exact ih p (e + 1) hf.2

theorem classify_option_toList (s : String) (c : Char) (cs : List Char)
    (h : classify s = ElemKind.option c cs) : s.toList = '-' :: c :: cs := by
  unfold classify at h
  split at h
  · exact ElemKind.noConfusion h
  · rename_i heq
    injection h with h1 h2
    rw [heq, h1, h2]
  · exact ElemKind.noConfusion h

theorem parseLoop_param (f : Char) (p : Params) (e : Nat) (args : List String)
    (hf : ∀ s ∈ args, f ∉ s.toList) :
    (parseLoop p e args).1 f = p f := by
  induction p, e, args using parseLoop.induct with
  | case1 p e => rfl
  | case2 p e s rest h => simp [parseLoop, h]
  | case3 p e s c cs h r hcond =>
    have hfalse : r.2.2 = false := scanElem_none_not_consumed p e (c :: cs)
    rw [hcond] at hfalse
    exact Bool.noConfusion hfalse
  | case4 p e s c cs h head rest' r hcond ih =>
    have hr : scanElem p e (c :: cs) (head :: rest').head? = r := rfl
    simp only [parseLoop, h, hr, hcond, if_true]
    have hcs : f ∉ c :: cs := by
      intro hmem
      exact hf s (List.mem_cons_self s _) (by rw [classify_option_toList s c cs h]; exact List.mem_cons_of_mem _ hmem)
    have h1 : r.1 f = p f := by
      rw [← hr]
      exact scanElem_param f (c :: cs) p e _ hcs
    rw [ih (fun s' hs' => hf s' (List.mem_cons_of_mem _ (List.mem_cons_of_mem _ hs'))), h1]
  | case5 p e s rest c cs h r hcond ih =>
    have hr : scanElem p e (c :: cs) rest.head? = r := rfl
    simp only [parseLoop, h, hr]
    rw [if_neg hcond]
    have hcs : f ∉ c :: cs := by
      intro hmem
      exact hf s (List.mem_cons_self s _) (by rw [classify_option_toList s c cs h]; exact List.mem_cons_of_mem _ hmem)
    have h1 : r.1 f = p f := by
      rw [← hr]
      exact scanElem_param f (c :: cs) p e _ hcs
    rw [ih (fun s' hs' => hf s' (List.mem_cons_of_mem _ hs')), h1]
  | case6 p e s rest h ih =>
    simp only [parseLoop, h]
    exact ih (fun s' hs' => hf s' (List.mem_cons_of_mem _ hs'))

theorem parseArgs_err_zero_iff (args : List String) :
    (parseArgs args).2 = 0 ↔ goodCmdLine args = true := by
  have h := parseLoop_err_zero_iff defaultParams 0 args
  simpa using h

/-- C1, counterexample: the scenario argument list
`-c1 -r16 -t256 -n4 -q100 -u80 -seed42` is not accepted by the CLI
parser.  `getopt` is called with optstring `"c:n:q:r:t:u:"`, which has
no `s` flag, so scanning `-seed42` returns `?` and bumps `opterr`; the
program then exits through `displayUsage` with code 1 instead of
running the parallel phase. -/
theorem seed_argument_list_exits_one :
    vacationExitCode ["-c1", "-r16", "-t256", "-n4", "-q100", "-u80", "-seed42"] = 1 ∧
    (parseArgs ["-c1", "-r16", "-t256", "-n4", "-q100", "-u80", "-seed42"]).2 ≠ 0 := by
  decide

/-- C1, amended: with the unrecognised `-seed42` word removed, the
argument list `-c1 -r16 -t256 -n4 -q100 -u80` is accepted by the CLI
parser (the program does not exit on a parse error, its exit code is 0)
and the six parameters take exactly the requested values. -/
theorem scenario_args_without_seed_accepted :
    vacationExitCode ["-c1", "-r16", "-t256", "-n4", "-q100", "-u80"] = 0 ∧
    (parseArgs ["-c1", "-r16", "-t256", "-n4", "-q100", "-u80"]).1 'c' = 1 ∧
    (parseArgs ["-c1", "-r16", "-t256", "-n4", "-q100", "-u80"]).1 'r' = 16 ∧
    (parseArgs ["-c1", "-r16", "-t256", "-n4", "-q100", "-u80"]).1 't' = 256 ∧
    (parseArgs ["-c1", "-r16", "-t256", "-n4", "-q100", "-u80"]).1 'n' = 4 ∧
    (parseArgs ["-c1", "-r16", "-t256", "-n4", "-q100", "-u80"]).1 'q' = 100 ∧
    (parseArgs ["-c1", "-r16", "-t256", "-n4", "-q100", "-u80"]).1 'u' = 80 := by
  decide

/-- C3: every flag among `-c`, `-n`, `-q`, `-r`, `-t`, `-u` that is
omitted from the command line keeps its default value: clients 1,
queries per transaction 10, percent queried 90, relations 65536,
transactions 67108864, percent user 80. -/
theorem omitted_flags_keep_defaults (args : List String) :
    (notInArgs 'c' args → (parseArgs args).1 'c' = 1) ∧
    (notInArgs 'n' args → (parseArgs args).1 'n' = 10) ∧
    (notInArgs 'q' args → (parseArgs args).1 'q' = 90) ∧
    (notInArgs 'r' args → (parseArgs args).1 'r' = 65536) ∧
    (notInArgs 't' args → (parseArgs args).1 't' = 67108864) ∧
    (notInArgs 'u' args → (parseArgs args).1 'u' = 80) := by
  refine ⟨?_, ?_, ?_, ?_, ?_, ?_⟩ <;> intro h <;>
    (show (parseLoop defaultParams 0 args).1 _ = _) <;>
    rw [parseLoop_param _ _ _ _ h] <;> decide

/-- Witness for C3 at a concrete input: `-c5` omits the flag `n`, and
parsing leaves the queries-per-transaction parameter at its default
10. -/
theorem omitted_flags_keep_defaults_witness :
    notInArgs 'n' ["-c5"] ∧ (parseArgs ["-c5"]).1 'n' = 10 :=
  ⟨by decide, (omitted_flags_keep_defaults ["-c5"]).2.1 (by decide)⟩

/-- C4: the program exits with code 1 exactly when argument parsing
fails (an unknown option, a missing required argument, or a non-option
argument), and with code 0 on every run whose arguments parse. -/
theorem exit_code_one_iff_parse_error (args : List String) :
    (vacationExitCode args = 1 ↔ goodCmdLine args = false) ∧
    (vacationExitCode args = 0 ↔ goodCmdLine args = true) := by
  have h := parseArgs_err_zero_iff args
  constructor
  · constructor
    · intro h1
      cases hb : goodCmdLine args with
      | false => rfl
      | true =>
        exfalso
        have hz := h.mpr hb
        simp [vacationExitCode, hz] at h1
    · intro hb
      have hz : (parseArgs args).2 ≠ 0 := by
        intro hz
        rw [hb] at h
        exact Bool.noConfusion (h.mp hz)
      simp [vacationExitCode, hz]
  · constructor
    · intro h0
      by_cases hz : (parseArgs args).2 = 0
      · exact h.mp hz
      · simp [vacationExitCode, hz] at h0
    · intro hb
      simp [vacationExitCode, h.mpr hb]

/-! ### Client construction arithmetic -/

theorem longOfDouble_of_nonneg (q : ℚ) (h : 0 ≤ q) : longOfDouble q = ⌊q⌋ := by
  simp [longOfDouble, not_lt.mpr h]

theorem numTransactionPerClient_round (t c : Int) (ht : 0 ≤ t) (hc : 0 < c) :
    numTransactionPerClient t c = round ((t : ℚ) / (c : ℚ)) := by
  have h1 : (0 : ℚ) ≤ (t : ℚ) / (c : ℚ) :=
    div_nonneg (by exact_mod_cast ht) (by exact_mod_cast hc.le)
  rw [numTransactionPerClient, longOfDouble_of_nonneg _ (by linarith), round_eq]

theorem queryRangeOf_round (q r : Int) (hq : 0 ≤ q) (hr : 0 ≤ r) :
    queryRangeOf q r = round ((q : ℚ) / 100 * (r : ℚ)) := by
  have h1 : (0 : ℚ) ≤ (q : ℚ) / 100 * (r : ℚ) :=
    mul_nonneg (div_nonneg (by exact_mod_cast hq) (by norm_num)) (by exact_mod_cast hr)
  rw [queryRangeOf, longOfDouble_of_nonneg _ (by linarith), round_eq]

/-- C5: for every parsed configuration with a positive client count and
non-negative `t`, `q`, `r`, every constructed client carries the
transaction quota `t/c` rounded to the nearest integer and the query
range `q/100 · r` rounded to the nearest integer (Mathlib `round`
rounds halves up, exactly the `(long)(x + 0.5)` of the source). -/
theorem clients_quota_and_range_rounded (p : Params)
    (hc : 0 < p 'c') (ht : 0 ≤ p 't') (hq : 0 ≤ p 'q') (hr : 0 ≤ p 'r') :
    ∀ cl ∈ initializeClients p,
      cl.numTransaction = round ((p 't' : ℚ) / (p 'c' : ℚ)) ∧
      cl.queryRange = round ((p 'q' : ℚ) / 100 * (p 'r' : ℚ)) := by
  intro cl hcl
  simp only [initializeClients, List.mem_map, List.mem_range] at hcl
  obtain ⟨i, hi, rfl⟩ := hcl
  exact ⟨numTransactionPerClient_round _ _ ht hc, queryRangeOf_round _ _ hq hr⟩

/-- Witness for C5: parsing `-c2 -t5 -q50 -r8` and instantiating at the
first client, whose quota is `round(5/2) = 3` and query range
`round(50/100 · 8) = 4`. -/
theorem clients_quota_and_range_rounded_witness :
    0 < (parseArgs ["-c2", "-t5", "-q50", "-r8"]).1 'c' ∧
    0 ≤ (parseArgs ["-c2", "-t5", "-q50", "-r8"]).1 't' ∧
    0 ≤ (parseArgs ["-c2", "-t5", "-q50", "-r8"]).1 'q' ∧
    0 ≤ (parseArgs ["-c2", "-t5", "-q50", "-r8"]).1 'r' ∧
    Client.mk 0 3 10 4 80 ∈ initializeClients (parseArgs ["-c2", "-t5", "-q50", "-r8"]).1 ∧
    ((Client.mk 0 3 10 4 80).numTransaction =
       round (((parseArgs ["-c2", "-t5", "-q50", "-r8"]).1 't' : ℚ) /
              ((parseArgs ["-c2", "-t5", "-q50", "-r8"]).1 'c' : ℚ)) ∧
     (Client.mk 0 3 10 4 80).queryRange =
       round (((parseArgs ["-c2", "-t5", "-q50", "-r8"]).1 'q' : ℚ) / 100 *
              ((parseArgs ["-c2", "-t5", "-q50", "-r8"]).1 'r' : ℚ))) := by
  have hc : (parseArgs ["-c2", "-t5", "-q50", "-r8"]).1 'c' = 2 := by decide
  have ht : (parseArgs ["-c2", "-t5", "-q50", "-r8"]).1 't' = 5 := by decide
  have hq : (parseArgs ["-c2", "-t5", "-q50", "-r8"]).1 'q' = 50 := by decide
  have hr : (parseArgs ["-c2", "-t5", "-q50", "-r8"]).1 'r' = 8 := by decide
  have hn : (parseArgs ["-c2", "-t5", "-q50", "-r8"]).1 'n' = 10 := by decide
  have hu : (parseArgs ["-c2", "-t5", "-q50", "-r8"]).1 'u' = 80 := by decide
  have h1 : numTransactionPerClient 5 2 = 3 := by
    rw [numTransactionPerClient, longOfDouble]
    norm_num
  have h2 : queryRangeOf 50 8 = 4 := by
    rw [queryRangeOf, longOfDouble]
    norm_num
  have hmem : Client.mk 0 3 10 4 80 ∈
      initializeClients (parseArgs ["-c2", "-t5", "-q50", "-r8"]).1 := by
    simp only [initializeClients, hc, ht, hq, hr, hn, hu, h1, h2]
    decide
  exact ⟨by decide, by decide, by decide, by decide, hmem,
    clients_quota_and_range_rounded (parseArgs ["-c2", "-t5", "-q50", "-r8"]).1
      (by decide) (by decide) (by decide) (by decide)
      (Client.mk 0 3 10 4 80) hmem⟩

theorem numTransactionPerClient_zero (c : Int) : numTransactionPerClient 0 c = 0 := by
  rw [numTransactionPerClient, Int.cast_zero, zero_div, longOfDouble]
  norm_num

/-- C6: on a run whose arguments parse with `-t 0` and a positive
client count, the program exits with code 0, every client is
constructed with a transaction quota of 0, the thread pool is invoked
with zero total work, and the initialisation summary is printed. -/
theorem zero_transactions_run (args : List String)
    (hok : (parseArgs args).2 = 0)
    (ht : (parseArgs args).1 't' = 0)
    (hc : 0 < (parseArgs args).1 'c') :
    vacationExitCode args = 0 ∧
    (∀ cl ∈ initializeClients (parseArgs args).1, cl.numTransaction = 0) ∧
    threadPoolWork (parseArgs args).1 = 0 ∧
    (∀ elapsed : ℚ, (mainTrace (parseArgs args).1 elapsed).any isSummaryMsg = true) := by
  refine ⟨by simp [vacationExitCode, hok], ?_, ?_, ?_⟩
  · intro cl hcl
    simp only [initializeClients, List.mem_map, List.mem_range] at hcl
    obtain ⟨i, hi, rfl⟩ := hcl
    show numTransactionPerClient ((parseArgs args).1 't') ((parseArgs args).1 'c') = 0
    rw [ht, numTransactionPerClient_zero]
  · apply List.sum_eq_zero
    intro x hx
    simp only [threadPoolWork, initializeClients, List.map_map, List.mem_map,
      List.mem_range] at hx
    obtain ⟨i, hi, rfl⟩ := hx
    show numTransactionPerClient ((parseArgs args).1 't') ((parseArgs args).1 'c') = 0
    rw [ht, numTransactionPerClient_zero]
  · intro elapsed
    simp [mainTrace, initializeManagerTrace, initializeClientsTrace, isSummaryMsg]

/-- Witness for C6: the command line `-t0`. -/
theorem zero_transactions_run_witness :
    (parseArgs ["-t0"]).2 = 0 ∧ (parseArgs ["-t0"]).1 't' = 0 ∧
    0 < (parseArgs ["-t0"]).1 'c' ∧
    (vacationExitCode ["-t0"] = 0 ∧
     (∀ cl ∈ initializeClients (parseArgs ["-t0"]).1, cl.numTransaction = 0) ∧
     threadPoolWork (parseArgs ["-t0"]).1 = 0 ∧
     (∀ elapsed : ℚ, (mainTrace (parseArgs ["-t0"]).1 elapsed).any isSummaryMsg = true)) :=
  ⟨by decide, by decide, by decide,
   zero_transactions_run ["-t0"] (by decide) (by decide) (by decide)⟩

/-! ### Console output -/

theorem pad6_length (m : Nat) : (pad6 m).length = 6 := by
  simp [pad6, String.length]

theorem pad6_digits (m : Nat) : ∀ ch ∈ (pad6 m).toList, ch.isDigit = true := by
  intro ch hch
  simp only [pad6, String.toList, List.mem_map, List.mem_range] at hch
  obtain ⟨i, hi, rfl⟩ := hch
  have hd : m / 10 ^ (5 - i) % 10 < 10 := Nat.mod_lt _ (by norm_num)
  interval_cases h : m / 10 ^ (5 - i) % 10 <;> decide

/-- C7: a successful run prints the phases in order — the manager and
client initialisation messages with their `done.` lines and the summary
block, the `Running clients` message with its `done.` line followed by
the wall-clock `Time = %0.6f` line (whose fractional part is exactly
six decimal digits), and the deallocation message with the final
`done.`; one `done.` per phase, four in total. -/
theorem output_trace_shape (p : Params) (elapsed : ℚ) :
    mainTrace p elapsed =
      [OutEvent.initManagerMsg, OutEvent.doneMsg,
       OutEvent.initClientsMsg, OutEvent.doneMsg,
       OutEvent.summaryMsg (p 't') (p 'c') (numTransactionPerClient (p 't') (p 'c'))
         (p 'n') (p 'r') (p 'q') (queryRangeOf (p 'q') (p 'r')) (p 'u'),
       OutEvent.runningMsg, OutEvent.doneMsg, OutEvent.timeMsg (fmtTime elapsed),
       OutEvent.deallocMsg, OutEvent.doneMsg] ∧
    (mainTrace p elapsed).count OutEvent.doneMsg = 4 ∧
    fmtTime elapsed = "Time = " ++ fmt6IntPart elapsed ++ "." ++ fmt6FracPart elapsed ∧
    (fmt6FracPart elapsed).length = 6 ∧
    (∀ ch ∈ (fmt6FracPart elapsed).toList, ch.isDigit = true) := by
  refine ⟨rfl, ?_, rfl, pad6_length _, pad6_digits _⟩
  simp [mainTrace, initializeManagerTrace, initializeClientsTrace, List.count_cons]

/-! ### `tm.h` macros -/

/-- C8: in the reference TM flavor `TM_EARLY_RELEASE(var)` expands to
nothing: it is the identity on the transaction state and in particular
leaves the read set (and every other log) untouched. -/
theorem tm_early_release_noop (tx : TxState) (v : Nat) :
    TM_EARLY_RELEASE tx v = tx ∧
    (TM_EARLY_RELEASE tx v).readSet = tx.readSet ∧
    (TM_EARLY_RELEASE tx v).writeSet = tx.writeSet ∧
    (TM_EARLY_RELEASE tx v).allocLog = tx.allocLog ∧
    (TM_EARLY_RELEASE tx v).freeLog = tx.freeLog :=
  ⟨rfl, rfl, rfl, rfl, rfl⟩

/-- C10: `P_MALLOC`/`P_FREE` expand to plain `malloc`/`free`: they do
not touch the transaction's allocation or free log, and a pointer from
`P_MALLOC` is not reclaimed by an abort rollback; `TM_MALLOC` records
its pointer in the allocation log and the rollback reclaims it, and
`TM_FREE` records its pointer in the free log. -/
theorem p_malloc_not_transactional (s : MemState) (ptr : Nat)
    (hfresh : s.nextPtr ∉ s.tx.allocLog) :
    (P_MALLOC s).2.tx = s.tx ∧
    (P_FREE s ptr).tx = s.tx ∧
    (P_MALLOC s).1 ∈ (txAbortRollback (P_MALLOC s).2).allocated ∧
    (TM_MALLOC s).1 ∈ (TM_MALLOC s).2.tx.allocLog ∧
    (TM_MALLOC s).1 ∉ (txAbortRollback (TM_MALLOC s).2).allocated ∧
    (TM_FREE s ptr).tx.freeLog = ptr :: s.tx.freeLog := by
  refine ⟨rfl, rfl, ?_, by simp [TM_MALLOC, STM_MALLOC], ?_, rfl⟩
  · simp only [P_MALLOC, txAbortRollback, List.mem_filter]
    constructor
    · exact List.mem_cons_self _ _
    · simpa using hfresh
  · simp only [TM_MALLOC, STM_MALLOC, txAbortRollback, List.mem_filter]
    intro hmem
    have := hmem.2
    simp at this

/-- Witness for C10 at the empty initial state. -/
theorem p_malloc_not_transactional_witness :
    (0 : Nat) ∉ ([] : List Nat) ∧
    ((P_MALLOC (MemState.mk [] 0 (TxState.mk 0 [] [] [] [] false))).2.tx =
       (MemState.mk [] 0 (TxState.mk 0 [] [] [] [] false)).tx ∧
     (P_FREE (MemState.mk [] 0 (TxState.mk 0 [] [] [] [] false)) 7).tx =
       (MemState.mk [] 0 (TxState.mk 0 [] [] [] [] false)).tx ∧
     (P_MALLOC (MemState.mk [] 0 (TxState.mk 0 [] [] [] [] false))).1 ∈
       (txAbortRollback (P_MALLOC (MemState.mk [] 0 (TxState.mk 0 [] [] [] [] false))).2).allocated ∧
     (TM_MALLOC (MemState.mk [] 0 (TxState.mk 0 [] [] [] [] false))).1 ∈
       (TM_MALLOC (MemState.mk [] 0 (TxState.mk 0 [] [] [] [] false))).2.tx.allocLog ∧
     (TM_MALLOC (MemState.mk [] 0 (TxState.mk 0 [] [] [] [] false))).1 ∉
       (txAbortRollback (TM_MALLOC (MemState.mk [] 0 (TxState.mk 0 [] [] [] [] false))).2).allocated ∧
     (TM_FREE (MemState.mk [] 0 (TxState.mk 0 [] [] [] [] false)) 7).tx.freeLog =
       7 :: (MemState.mk [] 0 (TxState.mk 0 [] [] [] [] false)).tx.freeLog) :=
  ⟨by decide,
   p_malloc_not_transactional (MemState.mk [] 0 (TxState.mk 0 [] [] [] [] false)) 7 (by decide)⟩

/-! ### The shuffle is a permutation -/

theorem getD_eq_getElem_of_lt (l : List Int) (n : Nat) (h : n < l.length) :
    l.getD n 0 = l[n] := by
  simp [List.getD_eq_getElem?_getD, List.getElem?_eq_getElem h]

theorem swapIds_perm (ids : List Int) (x y : Nat)
    (hx : x < ids.length) (hy : y < ids.length) :
    (swapIds ids x y).Perm ids := by
  have ha : ids.getD x 0 = ids[x] := getD_eq_getElem_of_lt ids x hx
  have hb : ids.getD y 0 = ids[y] := getD_eq_getElem_of_lt ids y hy
  rw [List.perm_iff_count]
  intro v
  rw [swapIds]
  simp only [ha, hb]
  have hy1 : y < (ids.set x ids[y]).length := by simpa using hy
  rw [List.count_set _ _ _ _ hy1, List.count_set _ _ _ _ hx]
  have hyy : (ids.set x ids[y])[y] = ids[y] := by
    by_cases hxy : x = y
    · subst hxy
      simp
    · rw [List.getElem_set_ne hxy]
  rw [hyy]
  have hmx : ids[x] ∈ ids := List.getElem_mem hx
  simp only [beq_iff_eq]
  by_cases h1 : ids[x] = v
  · have hcx : 1 ≤ ids.count v := List.one_le_count_iff.mpr (h1 ▸ hmx)
    by_cases h2 : ids[y] = v
    · simp [h1, h2]
      try omega
    · simp [h1, h2]
      try omega
  · by_cases h2 : ids[y] = v
    · simp [h1, h2]
      try omega
    · simp [h1, h2]
      try omega

theorem swapIds_length (ids : List Int) (x y : Nat) :
    (swapIds ids x y).length = ids.length := by
  simp [swapIds]

theorem shuffleLoop_perm (n : Nat) (hn : 0 < n) :
    ∀ (i : Nat) (ids : List Int) (r : RandState), ids.length = n →
      (shuffleLoop n i ids r).1.Perm ids ∧ (shuffleLoop n i ids r).1.length = n := by
  intro i
  induction i with
  | zero => exact fun ids r h => ⟨List.Perm.refl ids, h⟩
  | succ i ih =>
    intro ids r h
    simp only [shuffleLoop]
    have hsw : (swapIds ids ((random_generate r).1 % n)
        ((random_generate (random_generate r).2).1 % n)).Perm ids :=
      swapIds_perm ids _ _ (by rw [h]; exact Nat.mod_lt _ hn)
        (by rw [h]; exact Nat.mod_lt _ hn)
    have hlen : (swapIds ids ((random_generate r).1 % n)
        ((random_generate (random_generate r).2).1 % n)).length = n := by
      rw [swapIds_length, h]
    obtain ⟨hp, hl⟩ := ih _ (random_generate (random_generate r).2).2 hlen
    exact ⟨hp.trans hsw, hl⟩

/-! ### The populate loop -/

theorem populateLoop_ids (ids : List Int) (r : RandState) :
    (populateLoop ids r).1.map ReservationCall.id = ids := by
  induction ids generalizing r with
  | nil => rfl
  | cons id rest ih => simp [populateLoop, ih]

theorem populateLoop_num_price (ids : List Int) (r : RandState) :
    ∀ c ∈ (populateLoop ids r).1,
      c.num ∈ ([100, 200, 300, 400, 500] : List Int) ∧
      c.price ∈ ([50, 60, 70, 80, 90] : List Int) := by
  induction ids generalizing r with
  | nil => intro c hc; simp [populateLoop] at hc
  | cons id rest ih =>
    intro c hc
    simp only [populateLoop, random_generate, List.mem_cons] at hc
    rcases hc with h | h
    · subst h
      constructor
      · show ((r.f r.k % 5 + 1 : Nat) : Int) * 100 ∈ _
        have h5 : r.f r.k % 5 < 5 := Nat.mod_lt _ (by norm_num)
        interval_cases h : r.f r.k % 5 <;> decide
      · show ((r.f (r.k + 1) % 5 : Nat) : Int) * 10 + 50 ∈ _
        have h5 : r.f (r.k + 1) % 5 < 5 := Nat.mod_lt _ (by norm_num)
        interval_cases h : r.f (r.k + 1) % 5 <;> decide
    · exact ih _ c h

theorem populateLoop_length (ids : List Int) (r : RandState) :
    (populateLoop ids r).1.length = ids.length := by
  have h := populateLoop_ids ids r
  calc (populateLoop ids r).1.length
      = ((populateLoop ids r).1.map ReservationCall.id).length := (List.length_map _ _).symm
    _ = ids.length := by rw [h]

/-! ### Table rounds -/

theorem idsInit_length (n : Nat) : (idsInit n).length = n := by
  rw [idsInit, List.length_map, List.length_range]

theorem idsInit_nodup (n : Nat) : (idsInit n).Nodup := by
  rw [idsInit]
  refine List.Nodup.map ?_ (List.nodup_range n)
  intro a b hab
  simpa using hab

theorem tableRound_props (n : Nat) (hn : 0 < n) (ids : List Int) (r : RandState)
    (hlen : ids.length = n) :
    ((tableRound n ids r).1.map ReservationCall.id).Perm ids ∧
    (tableRound n ids r).2.1.Perm ids ∧
    (tableRound n ids r).2.1.length = n ∧
    (tableRound n ids r).1.length = n ∧
    (∀ c ∈ (tableRound n ids r).1,
      c.num ∈ ([100, 200, 300, 400, 500] : List Int) ∧
      c.price ∈ ([50, 60, 70, 80, 90] : List Int)) := by
  obtain ⟨hp, hl⟩ := shuffleLoop_perm n hn n ids r hlen
  refine ⟨?_, hp, hl, ?_, ?_⟩
  · rw [tableRound]
    simp only []
    rw [populateLoop_ids]
    exact hp
  · rw [tableRound]
    simp only []
    rw [populateLoop_length, hl]
  · intro c hc
    exact populateLoop_num_price _ _ c hc

theorem tableRounds_length (n : Nat) :
    ∀ (t : Nat) (ids : List Int) (r : RandState),
      (tableRounds n t ids r).length = t := by
  intro t
  induction t with
  | zero => intro ids r; rfl
  | succ t ih =>
    intro ids r
    simp only [tableRounds, List.length_cons, ih]

theorem tableRounds_mem_props (n : Nat) (hn : 0 < n) :
    ∀ (t : Nat) (ids : List Int) (r : RandState),
      ids.length = n → ids.Perm (idsInit n) →
      ∀ calls ∈ tableRounds n t ids r,
        calls.length = n ∧
        (calls.map ReservationCall.id).Perm (idsInit n) ∧
        (∀ c ∈ calls, c.num ∈ ([100, 200, 300, 400, 500] : List Int) ∧
                      c.price ∈ ([50, 60, 70, 80, 90] : List Int)) := by
  intro t
  induction t with
  | zero =>
    intro ids r _ _ calls hc
    simp [tableRounds] at hc
  | succ t ih =>
    intro ids r hlen hperm calls hc
    have h := tableRound_props n hn ids r hlen
    simp only [tableRounds, List.mem_cons] at hc
    rcases hc with rfl | hc
    · exact ⟨h.2.2.2.1, h.1.trans hperm, h.2.2.2.2⟩
    · exact ih _ _ h.2.2.1 (h.2.1.trans hperm) calls hc

theorem initManagerCalls_mem_props (n : Nat) (hn : 0 < n) (r : RandState) :
    ∀ calls ∈ initManagerCalls n r,
      calls.length = n ∧
      (calls.map ReservationCall.id).Perm (idsInit n) ∧
      (∀ c ∈ calls, c.num ∈ ([100, 200, 300, 400, 500] : List Int) ∧
                    c.price ∈ ([50, 60, 70, 80, 90] : List Int)) :=
  tableRounds_mem_props n hn 4 (idsInit n) r (idsInit_length n) (List.Perm.refl _)

theorem initManagerCalls_getD3_mem (n : Nat) (r : RandState) :
    (initManagerCalls n r).getD 3 [] ∈ initManagerCalls n r := by
  simp [initManagerCalls, tableRounds]

/-! ### Every setup add call succeeds -/

theorem applyResAdds_isSome (calls : List ReservationCall) :
    ∀ tbl : List (Int × Reservation),
      (∀ c ∈ calls, tbl.lookup c.id = none) →
      (∀ c ∈ calls, 0 ≤ c.num) →
      (calls.map ReservationCall.id).Nodup →
      (applyResAdds tbl calls).isSome = true := by
  induction calls with
  | nil => intro tbl _ _ _; rfl
  | cons c cs ih =>
    intro tbl hfresh hnum hnodup
    have hl : manager_addReservation_seq tbl c.id c.num c.price =
        some ((c.id, ⟨c.id, 0, c.num, c.num, c.price⟩) :: tbl) := by
      rw [manager_addReservation_seq, hfresh c (List.mem_cons_self c cs)]
      rw [if_neg (not_lt.mpr (hnum c (List.mem_cons_self c cs)))]
    simp only [applyResAdds, hl]
    simp only [List.map_cons, List.nodup_cons] at hnodup
    apply ih
    · intro c' hc'
      have hne : (c'.id == c.id) = false := by
        rw [beq_eq_false_iff_ne]
        intro he
        exact hnodup.1 (he ▸ List.mem_map_of_mem ReservationCall.id hc')
      rw [List.lookup_cons, hne]
      exact hfresh c' (List.mem_cons_of_mem c hc')
    · intro c' hc'
      exact hnum c' (List.mem_cons_of_mem c hc')
    · exact hnodup.2

theorem applyCustAdds_isSome (calls : List ReservationCall) :
    ∀ tbl : List (Int × Customer),
      (∀ c ∈ calls, tbl.lookup c.id = none) →
      (calls.map ReservationCall.id).Nodup →
      (applyCustAdds tbl calls).isSome = true := by
  induction calls with
  | nil => intro tbl _ _; rfl
  | cons c cs ih =>
    intro tbl hfresh hnodup
    have hl : manager_addCustomer_seq tbl c.id = some ((c.id, ⟨c.id⟩) :: tbl) := by
      rw [manager_addCustomer_seq, hfresh c (List.mem_cons_self c cs)]
    simp only [applyCustAdds, hl]
    simp only [List.map_cons, List.nodup_cons] at hnodup
    apply ih
    · intro c' hc'
      have hne : (c'.id == c.id) = false := by
        rw [beq_eq_false_iff_ne]
        intro he
        exact hnodup.1 (he ▸ List.mem_map_of_mem ReservationCall.id hc')
      rw [List.lookup_cons, hne]
      exact hfresh c' (List.mem_cons_of_mem c hc')
    · exact hnodup.2

theorem menu_num_nonneg (c : ReservationCall)
    (h : c.num ∈ ([100, 200, 300, 400, 500] : List Int)) : 0 ≤ c.num := by
  have h' : c.num = 100 ∨ c.num = 200 ∨ c.num = 300 ∨ c.num = 400 ∨ c.num = 500 := by
    simpa using h
  rcases h' with h1 | h1 | h1 | h1 | h1 <;> rw [h1] <;> norm_num

/-- C9: for every `numRelation ≥ 1` and every PRNG stream,
`initializeManager` issues to each of the four tables exactly
`numRelation` add calls whose ids form a permutation of
`1..numRelation` (the in-place swap shuffle preserves the
permutation), each with `num ∈ {100,…,500}` and `price ∈ {50,…,90}`,
and every add call returns `TRUE` (no `assert(status)` fires). -/
theorem init_manager_tables_populated (n : Nat) (hn : 1 ≤ n) (f : Nat → Nat) (k : Nat) :
    initManagerOk n ⟨f, k⟩ := by
  have hlen4 : (initManagerCalls n ⟨f, k⟩).length = 4 :=
    tableRounds_length n 4 (idsInit n) ⟨f, k⟩
  have hmem := initManagerCalls_mem_props n hn ⟨f, k⟩
  refine ⟨hlen4, hmem, ?_, ?_⟩
  · intro calls hc
    have hc' : calls ∈ initManagerCalls n ⟨f, k⟩ := List.take_subset 3 _ hc
    obtain ⟨hl, hperm, hmenu⟩ := hmem calls hc'
    apply applyResAdds_isSome
    · intro c _; exact List.lookup_nil
    · intro c hcc; exact menu_num_nonneg c (hmenu c hcc).1
    · exact (List.Perm.nodup_iff hperm).mpr (idsInit_nodup n)
  · obtain ⟨hl, hperm, hmenu⟩ :=
      hmem _ (initManagerCalls_getD3_mem n ⟨f, k⟩)
    apply applyCustAdds_isSome
    · intro c _; exact List.lookup_nil
    · exact (List.Perm.nodup_iff hperm).mpr (idsInit_nodup n)

/-- Witness for C9 at `numRelation = 1` and the all-zero PRNG stream. -/
theorem init_manager_tables_populated_witness :
    1 ≤ 1 ∧ initManagerOk 1 ⟨fun j => 0, 0⟩ :=
  ⟨le_refl 1, init_manager_tables_populated 1 (le_refl 1) (fun j => 0) 0⟩

/-! ### Cleanup versus setup customer ids -/

/-- C2, counterexample: at `numRelation = 4` with the PRNG stream
`f j = j`, the set of customer ids inserted by `initializeManager` IS
exactly `{1, 2, 3, 4} = 1..numRelation` — the shuffle permutes the
insertion order but not the id set — refuting the claim that the
inserted set differs from `1..numRelation`. -/
theorem inserted_customer_ids_are_one_to_n_example :
    (insertedCustomerIds 4 ⟨fun j => j, 0⟩).toFinset = ({1, 2, 3, 4} : Finset Int) ∧
    (cleanupCustomerIds 4).toFinset = ({1, 2, 3, 4} : Finset Int) := by
  decide

/-- C2, amended: `cleanupManager` calls `manager_deleteCustomer_seq`
for exactly the ids `1..numRelation`, and those are precisely the ids
the setup inserted as customers: the shuffled insertion order is a
permutation of `1..numRelation`, so the two id sets coincide. -/
theorem cleanup_deletes_inserted_customer_ids (n : Nat) (hn : 1 ≤ n)
    (f : Nat → Nat) (k : Nat) :
    cleanupCustomerIds n = idsInit n ∧
    (insertedCustomerIds n ⟨f, k⟩).Perm (cleanupCustomerIds n) ∧
    (insertedCustomerIds n ⟨f, k⟩).toFinset = (cleanupCustomerIds n).toFinset := by
  have hmem := initManagerCalls_mem_props n hn ⟨f, k⟩
  obtain ⟨hl, hperm, hmenu⟩ := hmem _ (initManagerCalls_getD3_mem n ⟨f, k⟩)
  have hp : (insertedCustomerIds n ⟨f, k⟩).Perm (cleanupCustomerIds n) := hperm
  exact ⟨rfl, hp, List.toFinset_eq_of_perm _ _ hp⟩

/-- Witness for C2 at `numRelation = 1` and the all-zero PRNG stream. -/
theorem cleanup_deletes_inserted_customer_ids_witness :
    1 ≤ 1 ∧
    (cleanupCustomerIds 1 = idsInit 1 ∧
     (insertedCustomerIds 1 ⟨fun j => 0, 0⟩).Perm (cleanupCustomerIds 1) ∧
     (insertedCustomerIds 1 ⟨fun j => 0, 0⟩).toFinset = (cleanupCustomerIds 1).toFinset) :=
  ⟨le_refl 1, cleanup_deletes_inserted_customer_ids 1 (le_refl 1) (fun j => 0) 0⟩

end Vacation
